import Mathlib

/-!
Shallow embedding of the climate-justice-index pipeline core
(`src/utils.py`, `etl/h3_dasymetric_interpolation.py`,
`etl/v124_p12345_censo2022.py`, `etl/v5_cnes.py`), with theorems checking
the spec's invariants against it.  Numeric columns are modelled over `ℚ`.
-/

namespace CJI

/-! ### Series primitives (pandas `Series.min` / `.max` / `.clip` / `.quantile`) -/

/-- `Series.min` over a nonempty series; the empty case is handled by callers. -/
def listMin : List ℚ → ℚ
  | [] => 0
  | x :: xs => xs.foldl min x

/-- `Series.max` over a nonempty series; the empty case is handled by callers. -/
def listMax : List ℚ → ℚ
  | [] => 0
  | x :: xs => xs.foldl max x

/-- `Series.clip(lower=lo, upper=hi)` applied to one entry. -/
def clipQ (lo hi x : ℚ) : ℚ := min hi (max lo x)

/-- `Series.quantile(p)` with pandas' default linear interpolation:
sort the values, take index `h = (n-1)*p`, and interpolate between the
entries at `⌊h⌋` and `⌊h⌋+1`. -/
def quantileQ (s : List ℚ) (p : ℚ) : ℚ :=
  let sorted := List.insertionSort (· ≤ ·) s
  let h : ℚ := ((s.length : ℚ) - 1) * p
  let j : ℕ := (Int.floor h).toNat
  let lo := sorted.getD j 0
  let hi := sorted.getD (j + 1) lo
  lo + (h - (j : ℚ)) * (hi - lo)

/-- The winsorization step of `normalize_minmax` (utils.py lines 62-65):
when requested, clip at the `l1` and `l2` quantiles. -/
def winsorized (s : List ℚ) (w : Bool) (l1 l2 : ℚ) : List ℚ :=
  if w then
    let lo := quantileQ s l1
    let hi := quantileQ s l2
    s.map (clipQ lo hi)
  else s

/-- `utils.normalize_minmax` (utils.py lines 49-75): optional winsorization,
then min-max scaling, with the degenerate `max == min` case mapped to the
constant-0 series. -/
def normalize_minmax (s : List ℚ) (w : Bool) (l1 l2 : ℚ) : List ℚ :=
  let t := winsorized s w l1 l2
  let mn := listMin t
  let mx := listMax t
  if mx = mn then t.map (fun _ => (0 : ℚ))
  else t.map (fun x => (x - mn) / (mx - mn))

/-- The inline min-max normalization of the gravitational scorer
(v5_cnes.py lines 144-151): `if max_val > min_val` divide, `else` 0.0. -/
def v5InlineNorm (s : List ℚ) : List ℚ :=
  let mn := listMin s
  let mx := listMax s
  if mn < mx then s.map (fun x => (x - mn) / (mx - mn))
  else s.map (fun _ => (0 : ℚ))

/-! ### Grid Builder (`etl/h3_dasymetric_interpolation.py`) -/

/-- One row of the merged base grid: hexagon id, census-tract id and the
hexagon's household count (`qtd_dom`). -/
structure GridRow where
  h3 : ℕ
  setor : ℕ
  qtd : ℕ
deriving DecidableEq

/-- `groupby('cd_setor')['qtd_dom'].transform('sum')`: total households of a
tract (h3_dasymetric_interpolation.py line 77). -/
def total_dom_setor (rows : List GridRow) (s : ℕ) : ℕ :=
  ((rows.filter (fun r => r.setor = s)).map (fun r => r.qtd)).sum

/-- `peso_dom = qtd_dom / total_dom_setor`, with the 0/0 case filled with 0
(lines 80 and 86); `ℚ` division by zero is already 0, which agrees with the
`fillna(0)` on the only reachable zero-denominator case (`qtd = 0`). -/
def peso_dom (rows : List GridRow) (r : GridRow) : ℚ :=
  (r.qtd : ℚ) / (total_dom_setor rows r.setor : ℚ)

/-- The persisted grid: rows with `qtd_dom > 0` (line 90). -/
def gridOutput (rows : List GridRow) : List GridRow :=
  rows.filter (fun r => 0 < r.qtd)

/-! ### Helper lemmas -/

theorem listMin_replicate (n : ℕ) (c : ℚ) : listMin (List.replicate n c) = listMax (List.replicate n c) := by
  cases n with
  | zero => rfl
  | succ m =>
    have hmin : ∀ k : ℕ, (List.replicate k c).foldl min c = c := by
      intro k
      induction k with
      | zero => rfl
      | succ j ih => simpa [List.replicate_succ, min_self] using ih
    have hmax : ∀ k : ℕ, (List.replicate k c).foldl max c = c := by
      intro k
      induction k with
      | zero => rfl
      | succ j ih => simpa [List.replicate_succ, max_self] using ih
    simp [listMin, listMax, List.replicate_succ, hmin, hmax]

theorem sum_filter_of_zero (p : GridRow → Bool) (f : GridRow → ℚ) :
    ∀ l : List GridRow, (∀ a ∈ l, p a = false → f a = 0) →
      ((l.filter p).map f).sum = (l.map f).sum := by
  intro l
  induction l with
  | nil => intro _; rfl
  | cons a t ih =>
    intro h
    have ih' := ih (fun b hb hb' => h b (List.mem_cons_of_mem a hb) hb')
    by_cases hp : p a
    · rw [List.filter_cons_of_pos hp, List.map_cons, List.sum_cons, ih',
        List.map_cons, List.sum_cons]
    · have hz : f a = 0 := h a (List.mem_cons_self a t) (by simpa using hp)
      rw [List.filter_cons_of_neg (by simpa using hp), ih', List.map_cons,
        List.sum_cons, hz, zero_add]

/-- Example grid for the C1 witness: tract 10 has two inhabited hexagons,
tract 20 a single hexagon with zero households. -/
def gridEx : List GridRow := [⟨1, 10, 3⟩, ⟨2, 10, 1⟩, ⟨3, 20, 0⟩]

/-- C1 (Weight-sum invariant of the Grid Builder): for every tract with
nonzero total households, the dasymetric weights `peso_dom` of its hexagons
in the persisted output sum to exactly 1; for a tract with zero total
households, every weight is 0. -/
theorem weight_sum_invariant (rows : List GridRow) (s : ℕ) :
    (total_dom_setor rows s ≠ 0 →
      (((gridOutput rows).filter (fun r => r.setor = s)).map (peso_dom rows)).sum = 1)
    ∧ (total_dom_setor rows s = 0 →
      ∀ r ∈ rows, r.setor = s → peso_dom rows r = 0) := by
  constructor
  · intro hT
    have hTQ : ((total_dom_setor rows s : ℚ)) ≠ 0 := by exact_mod_cast hT
    have h1 : (gridOutput rows).filter (fun r => r.setor = s)
        = ((rows.filter (fun r => r.setor = s)).filter (fun r => 0 < r.qtd)) := by
      simp only [gridOutput, List.filter_filter]
      exact List.filter_congr (fun a _ => by rw [Bool.and_comm])
    have hz : ∀ a ∈ rows.filter (fun r => r.setor = s),
        (decide (0 < a.qtd)) = false → peso_dom rows a = 0 := by
      intro a _ ha
      have : a.qtd = 0 := by simpa using ha
      simp [peso_dom, this]
    rw [h1, sum_filter_of_zero _ _ _ hz]
    have hmem : ∀ r ∈ rows.filter (fun r => r.setor = s),
        peso_dom rows r = (r.qtd : ℚ) * (total_dom_setor rows s : ℚ)⁻¹ := by
      intro r hr
      have hs : r.setor = s := by simpa using List.of_mem_filter hr
      rw [peso_dom, hs, div_eq_mul_inv]
    rw [List.map_congr_left hmem, List.sum_map_mul_right]
    have hsum : ((rows.filter (fun r => r.setor = s)).map (fun r => ((r.qtd : ℕ) : ℚ))).sum
        = (total_dom_setor rows s : ℚ) := by
      rw [total_dom_setor, Nat.cast_list_sum, List.map_map]
      rfl
    rw [hsum, mul_inv_cancel₀ hTQ]
  · intro hT r hr hs
    have hq : r.qtd = 0 := by
      rw [total_dom_setor] at hT
      have hmem : r.qtd ∈ (rows.filter (fun r => r.setor = s)).map (fun r => r.qtd) :=
        List.mem_map_of_mem _ (List.mem_filter.mpr ⟨hr, by simp [hs]⟩)
      exact List.sum_eq_zero_iff.mp hT _ hmem
    simp [peso_dom, hq]

/-- Witness for C1: in `gridEx`, tract 10 (total households 4) has output
weights summing to 1; tract 20 (total households 0) has weight 0. -/
theorem weight_sum_invariant_witness :
    (total_dom_setor gridEx 10 ≠ 0 ∧
      (((gridOutput gridEx).filter (fun r => r.setor = 10)).map (peso_dom gridEx)).sum = 1)
    ∧ (total_dom_setor gridEx 20 = 0 ∧ peso_dom gridEx ⟨3, 20, 0⟩ = 0) :=
  ⟨⟨by decide, (weight_sum_invariant gridEx 10).1 (by decide)⟩,
   ⟨by decide, (weight_sum_invariant gridEx 20).2 (by decide) ⟨3, 20, 0⟩ (by decide) rfl⟩⟩

/-! ### Dasymetric Aggregator (`etl/v124_p12345_censo2022.py`) -/

/-- One row of the merged table `df_merged` (line 120): hexagon id, tract id,
dasymetric weight and the tract-level raw census variables (already coerced
to numbers, with unparseable values filled with 0 — line 105). -/
structure CensoRow where
  h3 : ℕ
  setor : ℕ
  peso : ℚ
  vars : String → ℚ

/-- Per-indicator rules from `CENSUS_LOGIC` (lines 38-47). -/
structure IndicatorLogic where
  num_cols : List String
  den_cols : List String
  invert : Bool
deriving DecidableEq

/-- The `CENSUS_LOGIC` table (v124_p12345_censo2022.py lines 38-47). -/
def CENSUS_LOGIC : List (String × IndicatorLogic) :=
  [("v1", ⟨["v06004_v06001"], ["v06001"], false⟩),
   ("v2", ⟨["v00238"], ["v00001"], true⟩),
   ("v4", ⟨["v00853", "v00855", "v00857"], ["v01006"], true⟩),
   ("p1", ⟨["v01063"], ["v01042"], true⟩),
   ("p2", ⟨["v01031"], ["v01006"], true⟩),
   ("p3", ⟨["v01040", "v01041"], ["v01006"], true⟩),
   ("p4", ⟨["v01318", "v01320"], ["v01006"], true⟩),
   ("p5", ⟨["v01500", "v03000"], ["v00001"], true⟩)]

/-- Lines 124-130: multiply each raw column by `peso_dom`, then
`groupby('h3_id')[...].sum()` — the hexagon-level estimate of column `c`. -/
def hexAgg (rows : List CensoRow) (h : ℕ) (c : String) : ℚ :=
  ((rows.filter (fun r => r.h3 = h)).map (fun r => r.vars c * r.peso)).sum

/-- Line 146: `num_series = sum(df_hex[c] for c in logic['num_cols'])`. -/
def num_series (rows : List CensoRow) (L : IndicatorLogic) (h : ℕ) : ℚ :=
  (L.num_cols.map (hexAgg rows h)).sum

/-- Line 147: the analogous denominator sum. -/
def den_series (rows : List CensoRow) (L : IndicatorLogic) (h : ℕ) : ℚ :=
  (L.den_cols.map (hexAgg rows h)).sum

/-- Line 150: `np.where(den_series > 0, num_series / den_series, 0)`. -/
def abs_series (rows : List CensoRow) (L : IndicatorLogic) (h : ℕ) : ℚ :=
  if 0 < den_series rows L h then num_series rows L h / den_series rows L h else 0

/-- The tract-level numerator of one row: the sum of the indicator's
designated numerator variables. -/
def rowNum (L : IndicatorLogic) (r : CensoRow) : ℚ := (L.num_cols.map r.vars).sum

/-- The tract-level denominator of one row. -/
def rowDen (L : IndicatorLogic) (r : CensoRow) : ℚ := (L.den_cols.map r.vars).sum

/-- Line 153: normalization applied to the ratio series, with winsorization
at the 1%/99% quantiles. -/
def censoNorm (absList : List ℚ) : List ℚ :=
  normalize_minmax absList true (1/100) (99/100)

/-- Lines 156-157: `if logic['invert']: norm_series = 1.0 - norm_series`. -/
def censoFinal (L : IndicatorLogic) (absList : List ℚ) : List ℚ :=
  if L.invert then (censoNorm absList).map (fun x => 1 - x) else censoNorm absList

/-! ### Sum-rearrangement helpers -/

theorem sum_map_add {β} (l : List β) (g f : β → ℚ) :
    (l.map (fun r => g r + f r)).sum = (l.map g).sum + (l.map f).sum := by
  induction l with
  | nil => simp
  | cons a t ih => simp [ih]; ring

theorem sum_map_swap {α β} (cs : List α) (l : List β) (f : α → β → ℚ) :
    (cs.map (fun c => (l.map (f c)).sum)).sum
      = (l.map (fun r => (cs.map (fun c => f c r)).sum)).sum := by
  induction cs with
  | nil => simp
  | cons c cs ih => simp [ih, sum_map_add l (f c) (fun r => (cs.map (fun c => f c r)).sum)]

/-- The column-by-column weighted aggregation equals the row-by-row
weighted sum of the per-row column totals. -/
theorem series_eq (cols : List String) (rows : List CensoRow) (h : ℕ) :
    (cols.map (hexAgg rows h)).sum
      = ((rows.filter (fun r => r.h3 = h)).map
          (fun r => (cols.map r.vars).sum * r.peso)).sum := by
  unfold hexAgg
  rw [sum_map_swap cols (rows.filter (fun r => r.h3 = h)) (fun c r => r.vars c * r.peso)]
  congr 1
  refine List.map_congr_left (fun r _ => ?_)
  rw [← List.sum_map_mul_right]

/-- Rows of the C2 example: the spec's two-tract scenario (tract A value
100 with weight 0.3, tract B value 200 with weight 0.7; denominators 50/80),
both contributing to hexagon 1. -/
def censoEx : List CensoRow :=
  [⟨1, 1, 3/10, fun c => if c = "x" then 100 else if c = "y" then 50 else 0⟩,
   ⟨1, 2, 7/10, fun c => if c = "x" then 200 else if c = "y" then 80 else 0⟩]

/-- The indicator of the C2 example: numerator `x`, denominator `y`. -/
def Lxy : IndicatorLogic := ⟨["x"], ["y"], false⟩

/-- C2 (Ratio-of-sums semantics): the absolute indicator value of a hexagon
is the weighted sum of tract numerators divided by the weighted sum of
tract denominators when the latter is positive, else 0 — and on the spec's
concrete example it equals `(100*0.3+200*0.7)/(50*0.3+80*0.7) = 170/71`,
which differs from the average of the per-row ratios `(2 + 2.5)/2`. -/
theorem ratio_of_sums :
    (∀ (rows : List CensoRow) (L : IndicatorLogic) (h : ℕ),
      abs_series rows L h =
        if 0 < ((rows.filter (fun r => r.h3 = h)).map (fun r => rowDen L r * r.peso)).sum then
          ((rows.filter (fun r => r.h3 = h)).map (fun r => rowNum L r * r.peso)).sum /
            ((rows.filter (fun r => r.h3 = h)).map (fun r => rowDen L r * r.peso)).sum
        else 0)
    ∧ abs_series censoEx Lxy 1 = (100 * (3/10) + 200 * (7/10)) / (50 * (3/10) + 80 * (7/10))
    ∧ abs_series censoEx Lxy 1 ≠ (100/50 + 200/80) / 2 := by
  refine ⟨fun rows L h => ?_, ?_, ?_⟩
  · rw [abs_series, num_series, den_series, series_eq, series_eq]
    rfl
  · simp [abs_series, num_series, den_series, hexAgg, censoEx, Lxy]
    norm_num
  · simp [abs_series, num_series, den_series, hexAgg, censoEx, Lxy]
    norm_num

/-- The tract-variable table of the C4 witness: numerator `num = 1000`,
denominator `den = 500`. -/
def vEx : String → ℚ := fun c => if c = "num" then 1000 else if c = "den" then 500 else 0

/-- The C4 witness rows: two hexagons of the single tract T1 = 1 with
weights 0.4 and 0.6. -/
def censoCancelEx : List CensoRow := [⟨1, 1, 2/5, vEx⟩, ⟨2, 1, 3/5, vEx⟩]

/-- The indicator of the C4 witness. -/
def Lcancel : IndicatorLogic := ⟨["num"], ["den"], false⟩

/-- C4 (Weight cancellation for single-tract hexagons): if a hexagon draws
its values from exactly one tract row with positive weight, its ratio equals
the tract-level ratio, independent of the dasymetric weight. -/
theorem weight_cancellation (rows : List CensoRow) (L : IndicatorLogic) (h : ℕ)
    (r : CensoRow) (hone : rows.filter (fun x => x.h3 = h) = [r]) (hw : 0 < r.peso) :
    abs_series rows L h = if 0 < rowDen L r then rowNum L r / rowDen L r else 0 := by
  have hnum : num_series rows L h = rowNum L r * r.peso := by
    rw [num_series, series_eq, hone]
    simp [rowNum]
  have hden : den_series rows L h = rowDen L r * r.peso := by
    rw [den_series, series_eq, hone]
    simp [rowDen]
  rw [abs_series, hnum, hden]
  by_cases hd : 0 < rowDen L r
  · rw [if_pos (mul_pos hd hw), if_pos hd, mul_div_mul_right _ _ (ne_of_gt hw)]
  · have hle : rowDen L r ≤ 0 := le_of_not_lt hd
    rw [if_neg (by nlinarith), if_neg hd]

/-- Witness for C4: the spec's end-to-end scenario — weights 0.4/0.6,
tract numerator 1000 and denominator 500 give apportioned numerators
[400, 600], denominators [200, 300], and both hexagon ratios equal 2. -/
theorem weight_cancellation_witness :
    censoCancelEx.filter (fun x => x.h3 = 1) = [⟨1, 1, 2/5, vEx⟩]
    ∧ (0 < (⟨1, 1, 2/5, vEx⟩ : CensoRow).peso)
    ∧ abs_series censoCancelEx Lcancel 1
        = (if 0 < rowDen Lcancel ⟨1, 1, 2/5, vEx⟩ then
            rowNum Lcancel ⟨1, 1, 2/5, vEx⟩ / rowDen Lcancel ⟨1, 1, 2/5, vEx⟩ else 0)
    ∧ hexAgg censoCancelEx 1 "num" = 400 ∧ hexAgg censoCancelEx 2 "num" = 600
    ∧ hexAgg censoCancelEx 1 "den" = 200 ∧ hexAgg censoCancelEx 2 "den" = 300
    ∧ abs_series censoCancelEx Lcancel 1 = 2 ∧ abs_series censoCancelEx Lcancel 2 = 2 :=
  ⟨rfl, by norm_num,
   weight_cancellation censoCancelEx Lcancel 1 ⟨1, 1, 2/5, vEx⟩ rfl (by norm_num),
   by simp [hexAgg, censoCancelEx, vEx]; norm_num,
   by simp [hexAgg, censoCancelEx, vEx]; norm_num,
   by simp [hexAgg, censoCancelEx, vEx]; norm_num,
   by simp [hexAgg, censoCancelEx, vEx]; norm_num,
   by simp [abs_series, num_series, den_series, hexAgg, censoCancelEx, Lcancel, vEx]; norm_num,
   by simp [abs_series, num_series, den_series, hexAgg, censoCancelEx, Lcancel, vEx]; norm_num⟩

/-! ### Normalization length preservation -/

theorem winsorized_length (s : List ℚ) (w : Bool) (l1 l2 : ℚ) :
    (winsorized s w l1 l2).length = s.length := by
  rw [winsorized]
  split <;> simp

theorem normalize_minmax_length (s : List ℚ) (w : Bool) (l1 l2 : ℚ) :
    (normalize_minmax s w l1 l2).length = s.length := by
  rw [normalize_minmax]
  split <;> simp [winsorized_length]

/-- C7 (Invert flag): for every indicator of `CENSUS_LOGIC` carrying
`invert = true`, the persisted normalized value of each hexagon is
`1 -` the plain normalized value. -/
theorem invert_flag (key : String) (L : IndicatorLogic)
    (_hmem : (key, L) ∈ CENSUS_LOGIC) (hinv : L.invert = true)
    (absList : List ℚ) (i : ℕ) (hi : i < absList.length) :
    (censoFinal L absList).getD i 0 = 1 - (censoNorm absList).getD i 0 := by
  have hlen : i < (censoNorm absList).length := by
    rw [censoNorm, normalize_minmax_length]
    exact hi
  rw [censoFinal, if_pos (by simp [hinv]), List.getD_eq_getElem _ _ (by simpa using hlen),
    List.getElem_map, List.getD_eq_getElem _ _ hlen]

/-- Witness for C7: indicator `v2` carries `invert = true`; on the series
`[0, 1]` the exported entry 0 equals `1 -` its plain normalization. -/
theorem invert_flag_witness :
    ("v2", (⟨["v00238"], ["v00001"], true⟩ : IndicatorLogic)) ∈ CENSUS_LOGIC
    ∧ (⟨["v00238"], ["v00001"], true⟩ : IndicatorLogic).invert = true
    ∧ 0 < ([0, 1] : List ℚ).length
    ∧ (censoFinal ⟨["v00238"], ["v00001"], true⟩ [0, 1]).getD 0 0
        = 1 - (censoNorm [0, 1]).getD 0 0 :=
  ⟨by decide, rfl, by decide,
   invert_flag "v2" ⟨["v00238"], ["v00001"], true⟩ (by decide) rfl [0, 1] 0 (by decide)⟩

/-! ### Normalizer boundary and degenerate behaviour (`src/utils.py`) -/

/-- C5 (Normalization boundary): whenever the (optionally winsorized)
series has distinct minimum and maximum, an entry equal to the clipped
minimum normalizes to exactly 0 and an entry equal to the clipped maximum
normalizes to exactly 1. -/
theorem normalization_boundary (s : List ℚ) (w : Bool) (l1 l2 : ℚ) (i : ℕ)
    (hne : listMin (winsorized s w l1 l2) ≠ listMax (winsorized s w l1 l2))
    (hi : i < (winsorized s w l1 l2).length) :
    ((winsorized s w l1 l2).getD i 0 = listMin (winsorized s w l1 l2) →
      (normalize_minmax s w l1 l2).getD i 0 = 0)
    ∧ ((winsorized s w l1 l2).getD i 0 = listMax (winsorized s w l1 l2) →
      (normalize_minmax s w l1 l2).getD i 0 = 1) := by
  have hnm : normalize_minmax s w l1 l2
      = (winsorized s w l1 l2).map
          (fun x => (x - listMin (winsorized s w l1 l2)) /
            (listMax (winsorized s w l1 l2) - listMin (winsorized s w l1 l2))) := by
    rw [normalize_minmax]
    exact if_neg (fun hcon => hne hcon.symm)
  have hi' : i < ((winsorized s w l1 l2).map
      (fun x => (x - listMin (winsorized s w l1 l2)) /
        (listMax (winsorized s w l1 l2) - listMin (winsorized s w l1 l2)))).length := by
    simpa using hi
  constructor <;> intro hx
  · rw [hnm, List.getD_eq_getElem _ _ hi', List.getElem_map]
    have hx' : (winsorized s w l1 l2)[i] = listMin (winsorized s w l1 l2) :=
      (List.getD_eq_getElem _ _ hi).symm.trans hx
    rw [hx', sub_self, zero_div]
  · rw [hnm, List.getD_eq_getElem _ _ hi', List.getElem_map]
    have hx' : (winsorized s w l1 l2)[i] = listMax (winsorized s w l1 l2) :=
      (List.getD_eq_getElem _ _ hi).symm.trans hx
    rw [hx', div_self (sub_ne_zero_of_ne (Ne.symm hne))]

/-- The series of the C5 witness. -/
def normExS : List ℚ := [0, 10, 20, 30]

/-- Witness for C5: on `[0, 10, 20, 30]` with winsorization at 1%/99%, the
clipped series is `[0.3, 10, 20, 29.7]`; its clipped minimum normalizes to
0 and its clipped maximum to 1. -/
theorem normalization_boundary_witness :
    listMin (winsorized normExS true (1/100) (99/100))
      ≠ listMax (winsorized normExS true (1/100) (99/100))
    ∧ winsorized normExS true (1/100) (99/100) = [3/10, 10, 20, 297/10]
    ∧ (normalize_minmax normExS true (1/100) (99/100)).getD 0 0 = 0
    ∧ (normalize_minmax normExS true (1/100) (99/100)).getD 3 0 = 1 := by
  have hwins : winsorized normExS true (1/100) (99/100) = [3/10, 10, 20, 297/10] := by
    norm_num [normExS, winsorized, quantileQ, clipQ, List.insertionSort, List.orderedInsert,
      min_def, max_def, show Int.toNat 2 = 2 from rfl, List.getElem_cons_succ]
  have hne : listMin (winsorized normExS true (1/100) (99/100))
      ≠ listMax (winsorized normExS true (1/100) (99/100)) := by
    rw [hwins]
    norm_num [listMin, listMax, min_def, max_def]
  have hi0 : 0 < (winsorized normExS true (1/100) (99/100)).length := by
    rw [hwins]
    norm_num
  have hi3 : 3 < (winsorized normExS true (1/100) (99/100)).length := by
    rw [hwins]
    norm_num
  have hv0 : (winsorized normExS true (1/100) (99/100)).getD 0 0
      = listMin (winsorized normExS true (1/100) (99/100)) := by
    rw [hwins]
    norm_num [listMin, min_def, List.getD]
  have hv3 : (winsorized normExS true (1/100) (99/100)).getD 3 0
      = listMax (winsorized normExS true (1/100) (99/100)) := by
    rw [hwins]
    norm_num [listMax, max_def, List.getD]
  exact ⟨hne, hwins,
    (normalization_boundary normExS true (1/100) (99/100) 0 hne hi0).1 hv0,
    (normalization_boundary normExS true (1/100) (99/100) 3 hne hi3).2 hv3⟩

/-- C6 (Degenerate normalization): a constant series of any length is
normalized to the all-zero series, by `normalize_minmax` as well as by the
gravitational scorer's inline min-max. -/
theorem degenerate_normalization (n : ℕ) (c : ℚ) (w : Bool) (l1 l2 : ℚ) :
    normalize_minmax (List.replicate n c) w l1 l2 = List.replicate n 0
    ∧ v5InlineNorm (List.replicate n c) = List.replicate n 0 := by
  constructor
  · obtain ⟨d, hd⟩ : ∃ d, winsorized (List.replicate n c) w l1 l2 = List.replicate n d := by
      rw [winsorized]
      split
      · exact ⟨clipQ (quantileQ (List.replicate n c) l1) (quantileQ (List.replicate n c) l2) c,
          by rw [List.map_replicate]⟩
      · exact ⟨c, rfl⟩
    rw [normalize_minmax, hd, if_pos (listMin_replicate n d).symm, List.map_replicate]
  · rw [v5InlineNorm, if_neg (by rw [listMin_replicate n c]; exact lt_irrefl _),
      List.map_replicate]

/-! ### Gravitational Accessibility Scorer (`etl/v5_cnes.py`) -/

/-- `tree.query(coords_h3, k=3)` for one hexagon: the 3 nearest facilities,
each as a `(capacity_score, distance)` pair, in order of increasing
distance. -/
def query3 (facs : List (ℚ × ℚ)) : List (ℚ × ℚ) :=
  (List.insertionSort (fun a b => a.2 ≤ b.2) facs).take 3

/-- Lines 129-132: `capacities[indices] / (distances + 100)` summed over
the k = 3 query results — the absolute accessibility score `v5_sau_abs`. -/
def gravScoreHex (facs : List (ℚ × ℚ)) : ℚ :=
  ((query3 facs).map (fun f => f.1 / (f.2 + 100))).sum

/-- C3 (Gravitational score formula): the absolute score is the sum of
`capacity / (distance + 100)` over the 3 nearest facilities; with exactly 3
facilities every one of them contributes, and at distances `[0, 500, 2000]`
with capacities `[5, 10, 1]` the score is `5/100 + 10/600 + 1/2100`. -/
theorem gravitational_formula :
    (∀ facs : List (ℚ × ℚ), facs.length = 3 →
      gravScoreHex facs = (facs.map (fun f => f.1 / (f.2 + 100))).sum)
    ∧ gravScoreHex [(5, 0), (10, 500), (1, 2000)] = 5/100 + 10/600 + 1/2100 := by
  constructor
  · intro facs h3
    have hperm : List.Perm (List.insertionSort (fun a b : ℚ × ℚ => a.2 ≤ b.2) facs) facs :=
      List.perm_insertionSort _ facs
    have hlen : (List.insertionSort (fun a b : ℚ × ℚ => a.2 ≤ b.2) facs).length ≤ 3 :=
      le_of_eq (hperm.length_eq.trans h3)
    rw [gravScoreHex, query3, List.take_of_length_le hlen]
    exact (hperm.map _).sum_eq
  · norm_num [gravScoreHex, query3, List.insertionSort, List.orderedInsert]

/-- Witness for C3: the spec's 3-facility configuration satisfies the
length-3 hypothesis and the score equals the facility-wise sum. -/
theorem gravitational_formula_witness :
    ([(5, 0), (10, 500), (1, 2000)] : List (ℚ × ℚ)).length = 3
    ∧ gravScoreHex [(5, 0), (10, 500), (1, 2000)]
        = (([(5, 0), (10, 500), (1, 2000)] : List (ℚ × ℚ)).map
            (fun f => f.1 / (f.2 + 100))).sum :=
  ⟨rfl, gravitational_formula.1 [(5, 0), (10, 500), (1, 2000)] rfl⟩

/-- A facility row of the CNES registry after numeric coercion: latitude and
longitude are `none` when unparseable (`pd.to_numeric(errors='coerce')`,
lines 73-74), plus the service-availability values. -/
structure RawFacility where
  lat : Option ℚ
  lng : Option ℚ
  services : List ℚ

/-- Line 75: `dropna(subset=['nu_latitude', 'nu_longitude'])` — facilities
with parseable coordinates. -/
def validFacilities (l : List RawFacility) : List RawFacility :=
  l.filter (fun f => f.lat.isSome && f.lng.isSome)

/-- Line 88: `capacity_score` = sum of service flags `+ 1`. -/
def capacity_score (f : RawFacility) : ℚ := f.services.sum + 1

/-- The control flow of the Gravitational Scorer run: a missing registry
file raises `FileNotFoundError` before any output (lines 63-64); building
and querying the `cKDTree` spatial index over an empty facility set fails
in the underlying library (lines 123-129, per the spec: the
nearest-neighbor query cannot be satisfied), also before the output write
at line 160.  `dist h f` stands for the projected Euclidean distance
between hexagon `h` and facility `f`. -/
def v5Run (registry : Option (List RawFacility)) (hexes : List ℕ)
    (dist : ℕ → RawFacility → ℚ) : Except String (List (ℕ × ℚ)) :=
  match registry with
  | none => .error "FileNotFoundError: CNES file not found"
  | some l =>
    let facs := validFacilities l
    if facs.isEmpty then .error "cKDTree query on empty facility set"
    else .ok (hexes.map (fun h =>
      (h, gravScoreHex (facs.map (fun f => (capacity_score f, dist h f))))))

/-- C9 (Empty facility registry is fatal): when the registry file is
missing or no facility has parseable coordinates, the run ends in an error
and produces no output — in particular, never a zero-filled score table. -/
theorem empty_registry_fatal (registry : Option (List RawFacility))
    (hexes : List ℕ) (dist : ℕ → RawFacility → ℚ)
    (hempty : registry = none ∨ ∃ l, registry = some l ∧ validFacilities l = []) :
    (∃ e, v5Run registry hexes dist = .error e)
    ∧ ∀ out, v5Run registry hexes dist ≠ .ok out := by
  obtain h | ⟨l, hl, hv⟩ := hempty
  · subst h
    exact ⟨⟨_, rfl⟩, fun out h => by simp [v5Run] at h⟩
  · subst hl
    refine ⟨⟨"cKDTree query on empty facility set", ?_⟩, fun out hcon => ?_⟩
    · simp [v5Run, hv]
    · simp [v5Run, hv] at hcon

/-- Witness for C9: a registry whose only facility has an unparseable
latitude is non-missing yet yields an error, not a score table. -/
theorem empty_registry_fatal_witness :
    ((some [⟨none, some 1, [1]⟩] : Option (List RawFacility)) = none
      ∨ ∃ l, (some [⟨none, some 1, [1]⟩] : Option (List RawFacility)) = some l
          ∧ validFacilities l = [])
    ∧ (∃ e, v5Run (some [⟨none, some 1, [1]⟩]) [7] (fun _ _ => 0) = .error e)
    ∧ ∀ out, v5Run (some [⟨none, some 1, [1]⟩]) [7] (fun _ _ => 0) ≠ .ok out :=
  ⟨Or.inr ⟨[⟨none, some 1, [1]⟩], rfl, rfl⟩,
   (empty_registry_fatal (some [⟨none, some 1, [1]⟩]) [7] (fun _ _ => 0)
      (Or.inr ⟨[⟨none, some 1, [1]⟩], rfl, rfl⟩)).1,
   (empty_registry_fatal (some [⟨none, some 1, [1]⟩]) [7] (fun _ _ => 0)
      (Or.inr ⟨[⟨none, some 1, [1]⟩], rfl, rfl⟩)).2⟩

/-! ### File versioning (`src/utils.py`, `get_next_version_path`)

The file system is modelled as the finite set of existing path names; a
path name is its character list, split by the callers into stem and
suffix as `pathlib` does. -/

/-- Decimal rendering of a number (most significant digit first), as in
`f"{base_name}_v{next_version}{suffix}"`. -/
def natChars (n : ℕ) : List Char :=
  ((Nat.digits 10 n).map (fun d => Char.ofNat (48 + d))).reverse

/-- Parse the digit group of the regex back to a number. -/
def charsToNat (cs : List Char) : ℕ :=
  cs.foldl (fun a c => 10 * a + (c.toNat - 48)) 0

/-- `re.search(r'_v(\d+)$', stem)` (utils.py lines 21 and 31): the trailing
version number and the base before it, when the stem has one. -/
def parseVersion (stem : List Char) : Option (List Char × ℕ) :=
  let rev := stem.reverse
  match rev.takeWhile (fun c => c.isDigit), rev.dropWhile (fun c => c.isDigit) with
  | [], _ => none
  | digs, 'v' :: '_' :: base => some (base.reverse, charsToNat digs.reverse)
  | _, _ => none

/-- `f"{base}_v{n}{suffix}"` (utils.py lines 22 and 44). -/
def mkVersioned (base : List Char) (n : ℕ) (suffix : List Char) : List Char :=
  base ++ '_' :: 'v' :: (natChars n ++ suffix)

/-- The `while True` free-slot search of utils.py lines 43-47, supplied
with enough fuel to be total. -/
def searchFree (fs : Finset (List Char)) (base suffix : List Char) : ℕ → ℕ → List Char
  | 0, n => mkVersioned base n suffix
  | fuel + 1, n =>
    if mkVersioned base n suffix ∈ fs then searchFree fs base suffix fuel (n + 1)
    else mkVersioned base n suffix

/-- `get_next_version_path` (utils.py lines 11-47). -/
def get_next_version_path (fs : Finset (List Char)) (stem suffix : List Char) : List Char :=
  if stem ++ suffix ∈ fs then
    match parseVersion stem with
    | some (base, v) => searchFree fs base suffix (fs.card + 1) (v + 1)
    | none => searchFree fs stem suffix (fs.card + 1) 1
  else
    if (parseVersion stem).isNone then mkVersioned stem 1 suffix
    else stem ++ suffix

/-- `utils.save_parquet` (lines 104-114): write under the versioned name;
`save_gpkg` (lines 88-102) routes through the same path computation. -/
def save_parquet (fs : Finset (List Char)) (stem suffix : List Char) : Finset (List Char) :=
  insert (get_next_version_path fs stem suffix) fs

/-- The direct `to_parquet(output_path)` writes of the gravitational
scorer (v5_cnes.py line 160) and of the grid builder
(h3_dasymetric_interpolation.py line 95): the file lands at exactly the
target path, whether or not that path already exists.  Returns the new
file system and the written path. -/
def to_parquet_write (fs : Finset (List Char)) (path : List Char) :
    Finset (List Char) × List Char :=
  (insert path fs, path)

theorem digitChar_injOn :
    ∀ a < 10, ∀ b < 10, Char.ofNat (48 + a) = Char.ofNat (48 + b) → a = b := by decide

theorem map_digitChar_inj : ∀ l1 l2 : List ℕ, (∀ x ∈ l1, x < 10) → (∀ x ∈ l2, x < 10) →
    l1.map (fun d => Char.ofNat (48 + d)) = l2.map (fun d => Char.ofNat (48 + d)) → l1 = l2 := by
  intro l1
  induction l1 with
  | nil =>
    intro l2 _ _ h
    cases l2 with
    | nil => rfl
    | cons b u => simp at h
  | cons a t ih =>
    intro l2 h1 h2 h
    cases l2 with
    | nil => simp at h
    | cons b u =>
      simp only [List.map_cons, List.cons.injEq] at h
      have hab : a = b :=
        digitChar_injOn a (h1 a (List.mem_cons_self a t)) b (h2 b (List.mem_cons_self b u)) h.1
      rw [hab, ih u (fun x hx => h1 x (List.mem_cons_of_mem a hx))
        (fun x hx => h2 x (List.mem_cons_of_mem b hx)) h.2]

theorem natChars_inj {a b : ℕ} (h : natChars a = natChars b) : a = b := by
  have h' : (Nat.digits 10 a).map (fun d => Char.ofNat (48 + d))
      = (Nat.digits 10 b).map (fun d => Char.ofNat (48 + d)) := by
    have := congrArg List.reverse h
    simpa [natChars] using this
  have hdig : Nat.digits 10 a = Nat.digits 10 b :=
    map_digitChar_inj _ _ (fun x hx => Nat.digits_lt_base (by norm_num) hx)
      (fun x hx => Nat.digits_lt_base (by norm_num) hx) h'
  have := congrArg (Nat.ofDigits 10) hdig
  simpa [Nat.ofDigits_digits] using this

theorem mkVersioned_inj (base suffix : List Char) {a b : ℕ}
    (h : mkVersioned base a suffix = mkVersioned base b suffix) : a = b := by
  unfold mkVersioned at h
  have h1 := List.append_cancel_left h
  simp only [List.cons.injEq, true_and] at h1
  exact natChars_inj (List.append_cancel_right h1)

theorem exists_free_slot (fs : Finset (List Char)) (base suffix : List Char) (n : ℕ) :
    ∃ k, n ≤ k ∧ k < n + (fs.card + 1) ∧ mkVersioned base k suffix ∉ fs := by
  by_contra hcon
  push_neg at hcon
  have hmap : ∀ k ∈ Finset.Icc n (n + fs.card), mkVersioned base k suffix ∈ fs := by
    intro k hk
    rw [Finset.mem_Icc] at hk
    exact hcon k hk.1 (by omega)
  have hinj : Set.InjOn (fun k => mkVersioned base k suffix) (Finset.Icc n (n + fs.card)) :=
    fun x _ y _ hxy => mkVersioned_inj base suffix hxy
  have hcard := Finset.card_le_card_of_injOn _ hmap hinj
  rw [Nat.card_Icc] at hcard
  omega

theorem searchFree_not_mem (fs : Finset (List Char)) (base suffix : List Char) :
    ∀ fuel n : ℕ, (∃ k, n ≤ k ∧ k < n + fuel ∧ mkVersioned base k suffix ∉ fs) →
      searchFree fs base suffix fuel n ∉ fs := by
  intro fuel
  induction fuel with
  | zero =>
    rintro n ⟨k, h1, h2, -⟩
    exact absurd (by omega : k < n) (by omega)
  | succ fuel ih =>
    rintro n ⟨k, hk1, hk2, hk3⟩
    simp only [searchFree]
    by_cases hmem : mkVersioned base n suffix ∈ fs
    · rw [if_pos hmem]
      have hkn : k ≠ n := fun he => hk3 (he ▸ hmem)
      exact ih (n + 1) ⟨k, by omega, by omega, hk3⟩
    · rw [if_neg hmem]
      exact hmem

theorem searchFree_shape (fs : Finset (List Char)) (base suffix : List Char) :
    ∀ fuel n : ℕ, ∃ m, n ≤ m ∧ searchFree fs base suffix fuel n = mkVersioned base m suffix := by
  intro fuel
  induction fuel with
  | zero => exact fun n => ⟨n, le_refl n, rfl⟩
  | succ fuel ih =>
    intro n
    simp only [searchFree]
    by_cases hmem : mkVersioned base n suffix ∈ fs
    · rw [if_pos hmem]
      obtain ⟨m, hm, he⟩ := ih (n + 1)
      exact ⟨m, by omega, he⟩
    · rw [if_neg hmem]
      exact ⟨n, le_refl n, rfl⟩

/-- C8 (amended): a save routed through `get_next_version_path` whose bare
target already exists picks a versioned name that does not yet exist — so
every pre-existing file survives the save — and the version number strictly
increases over a version already in the stem. -/
theorem versioned_save_no_overwrite (fs : Finset (List Char)) (stem suffix : List Char)
    (hex : stem ++ suffix ∈ fs) :
    get_next_version_path fs stem suffix ∉ fs
    ∧ (∃ base k, 1 ≤ k ∧ get_next_version_path fs stem suffix = mkVersioned base k suffix
        ∧ ∀ b v, parseVersion stem = some (b, v) → base = b ∧ v < k)
    ∧ ∀ f ∈ fs, f ∈ save_parquet fs stem suffix := by
  refine ⟨?_, ?_, ?_⟩
  · rw [get_next_version_path, if_pos hex]
    cases hp : parseVersion stem with
    | some bv =>
      obtain ⟨b0, v0⟩ := bv
      exact searchFree_not_mem fs b0 suffix (fs.card + 1) (v0 + 1)
        (exists_free_slot fs b0 suffix (v0 + 1))
    | none =>
      exact searchFree_not_mem fs stem suffix (fs.card + 1) 1
        (exists_free_slot fs stem suffix 1)
  · cases hp : parseVersion stem with
    | some bv =>
      obtain ⟨b0, v0⟩ := bv
      obtain ⟨m, hm, he⟩ := searchFree_shape fs b0 suffix (fs.card + 1) (v0 + 1)
      refine ⟨b0, m, by omega, ?_, ?_⟩
      · rw [get_next_version_path, if_pos hex, hp]
        exact he
      · intro b v hbv
        obtain ⟨hb, hv⟩ := Prod.mk.inj (Option.some.inj hbv)
        exact ⟨hb, by omega⟩
    | none =>
      obtain ⟨m, hm, he⟩ := searchFree_shape fs stem suffix (fs.card + 1) 1
      refine ⟨stem, m, hm, ?_, fun b v hbv => by cases hbv⟩
      rw [get_next_version_path, if_pos hex, hp]
      exact he
  · intro f hf
    rw [save_parquet]
    exact Finset.mem_insert_of_mem hf

/-- The existing-file layout of the C8 witness. -/
def fsEx : Finset (List Char) := {"data.parquet".data}

/-- Witness for C8 (amended): with `data.parquet` present, the versioned
save picks a fresh name, and the old file is still there afterwards. -/
theorem versioned_save_no_overwrite_witness :
    ("data".data ++ ".parquet".data ∈ fsEx)
    ∧ get_next_version_path fsEx "data".data ".parquet".data ∉ fsEx
    ∧ ∀ f ∈ fsEx, f ∈ save_parquet fsEx "data".data ".parquet".data :=
  ⟨by decide,
   (versioned_save_no_overwrite fsEx "data".data ".parquet".data (by decide)).1,
   (versioned_save_no_overwrite fsEx "data".data ".parquet".data (by decide)).2.2⟩

/-- Counterexample for C8 as stated: the gravitational scorer's output
write goes straight to the target path even when that path already exists,
so the write hits a pre-existing file instead of a new versioned one. -/
theorem direct_write_overwrites :
    "out.parquet".data ∈ ({"out.parquet".data} : Finset (List Char))
    ∧ (to_parquet_write {"out.parquet".data} "out.parquet".data).2 = "out.parquet".data
    ∧ (to_parquet_write {"out.parquet".data} "out.parquet".data).2
        ∈ ({"out.parquet".data} : Finset (List Char)) :=
  ⟨by decide, rfl, by decide⟩

/-- C10 (Bare target never created): when the target does not exist and its
stem carries no version suffix, the versioned writers rewrite the name to
`<stem>_v1<suffix>`; the bare path itself is never written. -/
theorem bare_path_never_created (fs : Finset (List Char)) (stem suffix : List Char)
    (hnot : stem ++ suffix ∉ fs) (hp : parseVersion stem = none) :
    get_next_version_path fs stem suffix = mkVersioned stem 1 suffix
    ∧ get_next_version_path fs stem suffix ≠ stem ++ suffix
    ∧ stem ++ suffix ∉ save_parquet fs stem suffix := by
  have heq : get_next_version_path fs stem suffix = mkVersioned stem 1 suffix := by
    rw [get_next_version_path, if_neg hnot, hp]
    simp
  have hne : get_next_version_path fs stem suffix ≠ stem ++ suffix := by
    rw [heq]
    intro hcon
    have := congrArg List.length hcon
    simp only [mkVersioned, List.length_append, List.length_cons] at this
    omega
  refine ⟨heq, hne, ?_⟩
  rw [save_parquet, Finset.mem_insert]
  rintro (hcon | hcon)
  · exact hne hcon.symm
  · exact hnot hcon

/-- Witness for C10: saving to a non-existing `data.parquet` over an empty
file system writes `data_v1.parquet`, not `data.parquet`. -/
theorem bare_path_never_created_witness :
    ("data".data ++ ".parquet".data ∉ (∅ : Finset (List Char)))
    ∧ parseVersion "data".data = none
    ∧ get_next_version_path ∅ "data".data ".parquet".data
        = mkVersioned "data".data 1 ".parquet".data
    ∧ get_next_version_path ∅ "data".data ".parquet".data ≠ "data".data ++ ".parquet".data
    ∧ "data".data ++ ".parquet".data ∉ save_parquet ∅ "data".data ".parquet".data :=
  ⟨by decide, rfl,
   (bare_path_never_created ∅ "data".data ".parquet".data (by decide) rfl).1,
   (bare_path_never_created ∅ "data".data ".parquet".data (by decide) rfl).2.1,
   (bare_path_never_created ∅ "data".data ".parquet".data (by decide) rfl).2.2⟩

end CJI
